import Mathlib

/-
Verification of the numeric core of the FinTech Mini Suite dashboard
(streamlit_app.py): the ETF whole-share allocation planner, the SMA
crossover backtest pipeline, and the statistics helpers
(max_drawdown, CAGR, sharpe, var_historical).

Numbers carried by the Python code as floats are modelled as exact
rationals (ℚ); real-valued results of fractional powers and square roots
live in ℝ. A pandas NaN ("missing") cell is modelled as `none` of an
`Option` type, and a raised exception as an `Except.error` value.
-/

namespace FinApp

/-! ## ETF Allocation Planner (streamlit_app.py, "ETF Allocator" tab)

The Allocate handler:
* rejects the request when `abs(etf_rows["TargetWeight"].sum() - 1.0) > 1e-6`;
* fetches last prices; `prices.empty` (no ticker resolved) aborts with a warning;
* merges with `how="left"`, so a ticker without a fetched price gets a NaN price;
* computes `TargetAmt = TargetWeight * budget`,
  `Shares = np.floor(TargetAmt / Price).astype(int)`,
  `InvestAmt = Shares * Price`, `cash_left = budget - InvestAmt.sum()`.
  `astype(int)` raises (IntCastingNaNError) as soon as any merged price
  is NaN, which aborts the whole plan; this raise is modelled as the
  error value `AllocError.missingPrice`.
-/

/-- One row of the allocation plan table. -/
structure PlanRow where
  ticker : String
  targetWeight : ℚ
  price : ℚ
  targetAmt : ℚ
  shares : ℤ
  investAmt : ℚ
deriving Repr, DecidableEq

/-- The ways the Allocate handler can abort without producing a plan. -/
inductive AllocError where
  /-- weights do not sum to 1 within the 1e-6 tolerance -/
  | validation
  /-- no requested ticker resolved to a price (`prices.empty`) -/
  | noPrices
  /-- some ticker's price is missing: `astype(int)` raises on NaN -/
  | missingPrice
deriving Repr, DecidableEq

instance {ε α : Type} [DecidableEq ε] [DecidableEq α] : DecidableEq (Except ε α) := fun x y =>
  match x, y with
  | .ok a, .ok b =>
      if h : a = b then isTrue (by rw [h]) else isFalse (fun hc => h (Except.ok.inj hc))
  | .error a, .error b =>
      if h : a = b then isTrue (by rw [h]) else isFalse (fun hc => h (Except.error.inj hc))
  | .ok _, .error _ => isFalse (fun hc => Except.noConfusion hc)
  | .error _, .ok _ => isFalse (fun hc => Except.noConfusion hc)

/-- The absolute tolerance 1e-6 on the weight sum. -/
def tol : ℚ := 1 / 1000000

/-- Sum of the target weights of a request (`etf_rows["TargetWeight"].sum()`). -/
def weightSum (rows : List (String × ℚ)) : ℚ := (rows.map Prod.snd).sum

/-- One plan row computed from a ticker with a valid price. -/
def mkRow (budget : ℚ) (t : String) (w : ℚ) (p : ℚ) : PlanRow :=
  let ta : ℚ := w * budget
  let sh : ℤ := ⌊ta / p⌋
  { ticker := t, targetWeight := w, price := p,
    targetAmt := ta, shares := sh, investAmt := (sh : ℚ) * p }

/-- The Allocate handler: validation, price lookup, whole-share plan. -/
def allocate (rows : List (String × ℚ)) (budget : ℚ)
    (priceOf : String → Option ℚ) : Except AllocError (List PlanRow × ℚ) :=
  if tol < |weightSum rows - 1| then .error .validation
  else if rows.all (fun r => (priceOf r.1).isNone) then .error .noPrices
  else if rows.any (fun r => (priceOf r.1).isNone) then .error .missingPrice
  else
    let plan := rows.map (fun r => mkRow budget r.1 r.2 ((priceOf r.1).getD 0))
    .ok (plan, budget - (plan.map PlanRow.investAmt).sum)

/-! ## SMA Crossover Backtest (streamlit_app.py, "Backtest (SMA)" tab)

The Run Backtest handler:
* rejects `fast >= slow` with a warning before fetching anything;
* drops NaN closing prices: `px_close = data["Close"].dropna()`;
* `sma_f = px_close.rolling(fast).mean()`, `sma_s = px_close.rolling(slow).mean()`
  (NaN before the window fills);
* `signal = (sma_f > sma_s).astype(int)` — a NaN comparison is False, so the
  signal is 0 wherever either SMA is undefined;
* `signal = signal.shift(1).fillna(0)` — lag by one period;
* per-period returns `px_close.pct_change().fillna(0)`: entry 0 (which
  `pct_change` leaves NaN) is filled with 0, so the return series has the
  same length as the cleaned price series;
* equity curves are cumulative products of (1 + return).
-/

/-- `Series.dropna`: drop the missing observations. -/
def dropNone : List (Option ℚ) → List ℚ
  | [] => []
  | none :: rest => dropNone rest
  | some x :: rest => x :: dropNone rest

/-- `rolling(w).mean()` at index `i`: mean of entries `i+1-w .. i`,
undefined until the window is full. -/
def smaAt (w : ℕ) (p : List ℚ) (i : ℕ) : Option ℚ :=
  if i + 1 < w ∨ p.length ≤ i then none
  else some (((p.take (i + 1)).drop (i + 1 - w)).sum / (w : ℚ))

/-- `(sma_f > sma_s).astype(int)` at index `i`; comparisons against NaN are
False in pandas, so the entry is 0 unless both SMAs are defined. -/
def rawSignal (f s : ℕ) (p : List ℚ) (i : ℕ) : ℕ :=
  match smaAt f p i, smaAt s p i with
  | some a, some b => if b < a then 1 else 0
  | _, _ => 0

/-- `signal.shift(1).fillna(0)` at index `i`. -/
def laggedSignal (f s : ℕ) (p : List ℚ) (i : ℕ) : ℕ :=
  match i with
  | 0 => 0
  | j + 1 => rawSignal f s p j

/-- `px_close.pct_change().fillna(0)` at index `i` of a NaN-free series. -/
def pctChangeAt (p : List ℚ) (i : ℕ) : ℚ :=
  match i with
  | 0 => 0
  | j + 1 => p.getD (j + 1) 0 / p.getD j 0 - 1

/-- Per-period strategy return: lagged signal times raw return. -/
def stratRetAt (f s : ℕ) (p : List ℚ) (i : ℕ) : ℚ :=
  pctChangeAt p i * (laggedSignal f s p i : ℚ)

/-- `q.pct_change().fillna(0)` as a list (same length as `q`). -/
def returnList (q : List ℚ) : List ℚ := (List.range q.length).map (pctChangeAt q)

/-- The return series the backtest feeds to the equity curves and metrics:
prices are dropna-ed first, then `pct_change().fillna(0)`. -/
def returnSeries (p : List (Option ℚ)) : List ℚ := returnList (dropNone p)

/-- The strategy per-period return series. -/
def stratRetList (f s : ℕ) (p : List (Option ℚ)) : List ℚ :=
  (List.range (dropNone p).length).map (stratRetAt f s (dropNone p))

/-- `Series.cumprod` (helper carrying the running product). -/
def cumprodAux (a : ℚ) : List ℚ → List ℚ
  | [] => []
  | y :: ys => a * y :: cumprodAux (a * y) ys

/-- `Series.cumprod`. -/
def cumprod : List ℚ → List ℚ
  | [] => []
  | x :: xs => x :: cumprodAux x xs

/-- `strat_equity = (1 + px_close.pct_change().fillna(0) * signal).cumprod()`. -/
def stratEquity (f s : ℕ) (p : List (Option ℚ)) : List ℚ :=
  cumprod ((stratRetList f s p).map (fun r => 1 + r))

/-- `bh_equity = (1 + px_close.pct_change().fillna(0)).cumprod()`. -/
def bhEquity (p : List (Option ℚ)) : List ℚ :=
  cumprod ((returnSeries p).map (fun r => 1 + r))

/-- The ways the Run Backtest handler aborts without computing. -/
inductive BtError where
  /-- `fast >= slow` -/
  | validation
  /-- the fetched history is empty -/
  | noData
deriving Repr, DecidableEq

/-- The Run Backtest handler: window validation, then the two equity curves. -/
def runBacktest (fast slow : ℕ) (p : List (Option ℚ)) :
    Except BtError (List ℚ × List ℚ) :=
  if slow ≤ fast then .error .validation
  else if p = [] then .error .noData
  else .ok (stratEquity fast slow p, bhEquity p)

/-- The scenario price series [100,102,101,105,108]. -/
def scenarioP : List ℚ := [100, 102, 101, 105, 108]

/-! ## Statistics helpers (max_drawdown, CAGR, sharpe, var_historical) -/

/-- `Series.cummax` (helper carrying the running maximum). -/
def cummaxAux (m : ℚ) : List ℚ → List ℚ
  | [] => []
  | y :: ys => max m y :: cummaxAux (max m y) ys

/-- `Series.cummax`. -/
def cummax : List ℚ → List ℚ
  | [] => []
  | x :: xs => x :: cummaxAux x xs

/-- `drawdown = series/cummax - 1.0`, elementwise. -/
def drawdowns (l : List ℚ) : List ℚ :=
  List.zipWith (fun e m => e / m - 1) l (cummax l)

/-- `Series.min`: the minimum of a series, NaN (`none`) when empty. -/
def minQ : List ℚ → Option ℚ
  | [] => none
  | x :: xs => some (xs.foldl min x)

/-- `max_drawdown`: NaN on an empty series, else the minimum drawdown. -/
def max_drawdown (l : List ℚ) : Option ℚ := minQ (drawdowns l)

/-- `CAGR(equity_curve, periods_per_year)`. NaN (`none`) on an empty curve
or non-positive duration. The model requires `periods_per_year ≠ 0` to be
faithful: Python raises ZeroDivisionError at `n_periods / periods_per_year`
when it is 0. -/
noncomputable def CAGR (equity_curve : List ℚ) (periods_per_year : ℤ) : Option ℝ :=
  if equity_curve = [] then none
  else
    let total_return : ℚ := equity_curve.getLastD 0 / equity_curve.headD 0 - 1
    let yrs : ℚ := (equity_curve.length : ℚ) / (periods_per_year : ℚ)
    if yrs ≤ 0 then none
    else some ((1 + (total_return : ℝ)) ^ ((1 : ℝ) / (yrs : ℝ)) - 1)

/-- `Series.mean` (only ever used on non-empty series here). -/
def listMean (l : List ℚ) : ℚ := l.sum / (l.length : ℚ)

/-- `Series.var(ddof=1)`: the sample variance, NaN (`none`) for fewer than
two observations. -/
def sampleVar (l : List ℚ) : Option ℚ :=
  if l.length ≤ 1 then none
  else some ((l.map (fun x => (x - listMean l) ^ 2)).sum / ((l.length : ℚ) - 1))

/-- `Series.std(ddof=1)`: the sample standard deviation. -/
noncomputable def sampleStd (l : List ℚ) : Option ℝ :=
  (sampleVar l).map (fun v : ℚ => Real.sqrt (v : ℝ))

/-- `excess = returns - risk_free/periods_per_year`. The model requires
`periods_per_year > 0` to be faithful: Python raises ZeroDivisionError
when it is 0. -/
def excessList (returns : List ℚ) (risk_free : ℚ) (ppy : ℕ) : List ℚ :=
  returns.map (fun r => r - risk_free / (ppy : ℚ))

/-- `sharpe(returns, risk_free, periods_per_year)`: NaN (`none`) on an empty
series or when `sigma = std(excess, ddof=1) * sqrt(ppy)` is 0 or NaN,
else `mu / sigma` with `mu = mean(excess) * ppy`. -/
noncomputable def sharpe (returns : List ℚ) (risk_free : ℚ) (ppy : ℕ) : Option ℝ :=
  if returns = [] then none
  else
    match sampleVar (excessList returns risk_free ppy) with
    | none => none
    | some v =>
      if v = 0 then none
      else some (((listMean (excessList returns risk_free ppy) * (ppy : ℚ) : ℚ) : ℝ) /
        (Real.sqrt (v : ℝ) * Real.sqrt (ppy : ℝ)))

/-- `np.percentile(l, q)` with the default linear interpolation: the value at
fractional rank `q/100 * (n - 1)` of the ascending sort of `l`. -/
def percentile (l : List ℚ) (q : ℚ) : ℚ :=
  let s := l.insertionSort (· ≤ ·)
  let pos : ℚ := q / 100 * ((l.length : ℚ) - 1)
  let i : ℕ := (⌊pos⌋).toNat
  let f : ℚ := pos - (i : ℚ)
  s.getD i 0 + f * (s.getD (i + 1) (s.getD i 0) - s.getD i 0)

/-- `var_historical(returns, level)`: NaN (`none`) on an empty series, else
`np.percentile(returns.dropna(), (1 - level) * 100)`. -/
def var_historical (returns : List (Option ℚ)) (level : ℚ) : Option ℚ :=
  if returns = [] then none
  else some (percentile (dropNone returns) ((1 - level) * 100))

/-! ## Helper lemmas: allocation planner -/

lemma mkRow_invest_nonneg (budget : ℚ) (t : String) (w p : ℚ)
    (hw : 0 ≤ w) (hb : 0 ≤ budget) (hp : 0 < p) :
    0 ≤ (mkRow budget t w p).investAmt := by
  have h0 : (0:ℚ) ≤ w * budget / p := div_nonneg (mul_nonneg hw hb) hp.le
  have h1 : (0:ℤ) ≤ ⌊w * budget / p⌋ := Int.floor_nonneg.mpr h0
  have h2 : (0:ℚ) ≤ (⌊w * budget / p⌋ : ℚ) := by exact_mod_cast h1
  exact mul_nonneg h2 hp.le

lemma mkRow_invest_le (budget : ℚ) (t : String) (w p : ℚ) (hp : 0 < p) :
    (mkRow budget t w p).investAmt ≤ w * budget := by
  show ((⌊w * budget / p⌋ : ℤ) : ℚ) * p ≤ w * budget
  calc ((⌊w * budget / p⌋ : ℤ) : ℚ) * p ≤ (w * budget / p) * p :=
        mul_le_mul_of_nonneg_right (Int.floor_le _) hp.le
    _ = w * budget := div_mul_cancel₀ _ (ne_of_gt hp)

lemma investSum_bounds (budget : ℚ) (priceOf : String → Option ℚ) (hb : 0 ≤ budget) :
    ∀ rows : List (String × ℚ),
      (∀ r ∈ rows, 0 ≤ r.2) →
      (∀ r ∈ rows, ∃ p, priceOf r.1 = some p ∧ 0 < p) →
      0 ≤ ((rows.map (fun r => mkRow budget r.1 r.2 ((priceOf r.1).getD 0))).map
              PlanRow.investAmt).sum ∧
        ((rows.map (fun r => mkRow budget r.1 r.2 ((priceOf r.1).getD 0))).map
              PlanRow.investAmt).sum ≤ weightSum rows * budget := by
  intro rows
  induction rows with
  | nil => intro _ _; simp [weightSum]
  | cons r rows ih =>
    intro hw hp
    obtain ⟨p, hpe, hpp⟩ := hp r (List.mem_cons_self r rows)
    have hw0 : 0 ≤ r.2 := hw r (List.mem_cons_self r rows)
    have ih' := ih (fun x hx => hw x (List.mem_cons_of_mem r hx))
      (fun x hx => hp x (List.mem_cons_of_mem r hx))
    have hpr : (priceOf r.1).getD 0 = p := by rw [hpe]; rfl
    have hnn := mkRow_invest_nonneg budget r.1 r.2 p hw0 hb hpp
    have hle := mkRow_invest_le budget r.1 r.2 p hpp
    have hws : weightSum (r :: rows) = r.2 + weightSum rows := by
      simp [weightSum]
    constructor
    · simp only [List.map_cons, List.sum_cons, hpr]
      linarith [ih'.1]
    · simp only [List.map_cons, List.sum_cons, hpr, hws]
      have hexp : (r.2 + weightSum rows) * budget
          = r.2 * budget + weightSum rows * budget := by ring
      rw [hexp]
      linarith [ih'.2]

/-! ## Claim theorems: allocation planner -/

/-- C1 (amended). For every AllocationRequest whose weights are nonnegative and
sum to 1 within the 1e-6 tolerance, every budget ≥ 0 and positive prices for all
requested tickers, the planner computes per ticker targetAmount = weight×budget,
shares = floor(targetAmount/price), investedAmount = shares×price, with
0 ≤ investedAmount ≤ targetAmount; cashRemaining = budget − Σ investedAmount
satisfies budget×(1 − Σweights) ≤ cashRemaining ≤ budget — hence
0 ≤ cashRemaining whenever Σweights ≤ 1 (the original lower bound 0 can fail by
up to budget×1e-6 when the tolerance lets Σweights exceed 1). In particular the
{VTI:0.6, VXUS:0.3, BND:0.1} scenario with budget 10000 and prices
{VTI:200, VXUS:55, BND:75} yields shares 30, 54, 13 and cashRemaining 55. -/
theorem etf_allocation_bounds_amended :
    (∀ (rows : List (String × ℚ)) (budget : ℚ) (priceOf : String → Option ℚ),
      0 ≤ budget →
      (∀ r ∈ rows, 0 ≤ r.2) →
      (∀ r ∈ rows, ∃ p, priceOf r.1 = some p ∧ 0 < p) →
      |weightSum rows - 1| ≤ tol →
      ∃ plan cash,
        allocate rows budget priceOf = .ok (plan, cash) ∧
        plan = rows.map (fun r => mkRow budget r.1 r.2 ((priceOf r.1).getD 0)) ∧
        (∀ row ∈ plan,
          row.targetAmt = row.targetWeight * budget ∧
          row.shares = ⌊row.targetAmt / row.price⌋ ∧
          row.investAmt = (row.shares : ℚ) * row.price ∧
          0 ≤ row.investAmt ∧ row.investAmt ≤ row.targetAmt) ∧
        cash = budget - (plan.map PlanRow.investAmt).sum ∧
        budget * (1 - weightSum rows) ≤ cash ∧
        cash ≤ budget ∧
        (weightSum rows ≤ 1 → 0 ≤ cash)) ∧
    allocate [("VTI", 3/5), ("VXUS", 3/10), ("BND", 1/10)] 10000
      (fun t => if t = "VTI" then some 200 else if t = "VXUS" then some 55
        else if t = "BND" then some 75 else none)
      = .ok ([⟨"VTI", 3/5, 200, 6000, 30, 6000⟩,
              ⟨"VXUS", 3/10, 55, 3000, 54, 2970⟩,
              ⟨"BND", 1/10, 75, 1000, 13, 975⟩], 55) := by
  constructor
  · intro rows budget priceOf hb hw hp htol
    have hne : rows ≠ [] := by
      rintro rfl
      simp [weightSum] at htol
      norm_num [tol] at htol
    obtain ⟨r0, hr0⟩ := List.exists_mem_of_ne_nil rows hne
    obtain ⟨p0, hp0e, _⟩ := hp r0 hr0
    have hall : ¬ (rows.all (fun r => (priceOf r.1).isNone) = true) := by
      simp only [List.all_eq_true, not_forall]
      refine ⟨r0, hr0, ?_⟩
      simp [hp0e]
    have hany : ¬ (rows.any (fun r => (priceOf r.1).isNone) = true) := by
      simp only [List.any_eq_true, not_exists]
      intro x
      simp only [not_and]
      intro hx
      obtain ⟨p, hpe, _⟩ := hp x hx
      simp [hpe]
    have hv : ¬ (tol < |weightSum rows - 1|) := not_lt.mpr htol
    have hsb := investSum_bounds budget priceOf hb rows hw hp
    refine ⟨_, _, ?_, rfl, ?_, rfl, ?_, ?_, ?_⟩
    · rw [allocate, if_neg hv, if_neg hall, if_neg hany]
    · intro row hrow
      obtain ⟨r, hr, rfl⟩ := List.mem_map.mp hrow
      obtain ⟨p, hpe, hpp⟩ := hp r hr
      have hpr : (priceOf r.1).getD 0 = p := by rw [hpe]; rfl
      rw [hpr]
      refine ⟨rfl, rfl, rfl, mkRow_invest_nonneg _ _ _ _ (hw r hr) hb hpp, ?_⟩
      exact mkRow_invest_le budget r.1 r.2 p hpp
    · have hexp : budget * (1 - weightSum rows)
          = budget - weightSum rows * budget := by ring
      rw [hexp]
      have := hsb.2
      linarith
    · have := hsb.1
      linarith
    · intro hle
      have h1 : weightSum rows * budget ≤ budget := mul_le_of_le_one_left hb hle
      have := hsb.2
      linarith
  · have h1 : ¬ (tol < |weightSum [("VTI", 3/5), ("VXUS", 3/10), ("BND", 1/10)] - 1|) := by
      rw [show weightSum [("VTI", (3:ℚ)/5), ("VXUS", 3/10), ("BND", 1/10)] - 1 = 0 by
        norm_num [weightSum]]
      norm_num [tol]
    rw [allocate, if_neg h1, if_neg (by simp), if_neg (by simp)]
    simp only [List.map_cons, List.map_nil, mkRow, List.sum_cons, List.sum_nil,
      String.reduceEq, reduceIte, Option.getD_some]
    norm_num [PlanRow.mk.injEq, Prod.ext_iff]

/-- C1 witness: the general bounds applied to a concrete one-ticker request. -/
theorem etf_allocation_bounds_witness :
    ∃ plan cash, allocate [("X", 1)] 100 (fun _ => some 3) = .ok (plan, cash) ∧
      0 ≤ cash ∧ cash ≤ 100 := by
  obtain ⟨plan, cash, hok, -, -, -, -, hub, hlb⟩ :=
    etf_allocation_bounds_amended.1 [("X", 1)] 100 (fun _ => some 3)
      (by norm_num)
      (by intro r hr; simp at hr; rw [hr]; norm_num)
      (by intro r hr; exact ⟨3, rfl, by norm_num⟩)
      (by rw [show weightSum [("X", (1:ℚ))] - 1 = 0 by norm_num [weightSum]]
          norm_num [tol])
  exact ⟨plan, cash, hok, hlb (by norm_num [weightSum]), hub⟩

/-- C1 counterexample: weights 0.6 and 0.4 + 9e-7 sum to 1 + 9e-7, inside the
1e-6 tolerance, yet with budget 10^7 and both prices 1 the plan invests
10000009 and cashRemaining = −9 < 0, refuting 0 ≤ cashRemaining as claimed. -/
theorem etf_allocation_cash_negative_counterexample :
    allocate [("A", 3/5), ("B", 4000009/10000000)] 10000000 (fun _ => some 1) =
      .ok ([⟨"A", 3/5, 1, 6000000, 6000000, 6000000⟩,
            ⟨"B", 4000009/10000000, 1, 4000009, 4000009, 4000009⟩], -9) ∧
    |weightSum [("A", 3/5), ("B", 4000009/10000000)] - 1| ≤ tol ∧
    (-9 : ℚ) < 0 := by
  have hs : weightSum [("A", (3:ℚ)/5), ("B", 4000009/10000000)] - 1 = 9/10000000 := by
    norm_num [weightSum]
  refine ⟨?_, ?_, by norm_num⟩
  · have h1 : ¬ (tol < |weightSum [("A", (3:ℚ)/5), ("B", 4000009/10000000)] - 1|) := by
      rw [hs, abs_of_nonneg (by norm_num)]
      norm_num [tol]
    rw [allocate, if_neg h1, if_neg (by simp), if_neg (by simp)]
    simp only [List.map_cons, List.map_nil, mkRow, List.sum_cons, List.sum_nil,
      Option.getD_some]
    norm_num [PlanRow.mk.injEq, Prod.ext_iff]
  · rw [hs, abs_of_nonneg (by norm_num)]
    norm_num [tol]

/-- C4. A caller-contract violation aborts before any computation: a backtest
with fast ≥ slow yields a validation error and no backtest, and an allocation
request whose weights do not sum to 1 within 1e-6 yields a validation error and
no plan; in particular weights {A:0.5, B:0.4} are rejected for every budget and
every price lookup. -/
theorem validation_rejects_before_compute :
    (∀ (fast slow : ℕ) (p : List (Option ℚ)), slow ≤ fast →
      runBacktest fast slow p = .error .validation) ∧
    (∀ (rows : List (String × ℚ)) (budget : ℚ) (priceOf : String → Option ℚ),
      tol < |weightSum rows - 1| →
      allocate rows budget priceOf = .error .validation) ∧
    (∀ (budget : ℚ) (priceOf : String → Option ℚ),
      allocate [("A", 1/2), ("B", 2/5)] budget priceOf = .error .validation) := by
  refine ⟨?_, ?_, ?_⟩
  · intro fast slow p h
    rw [runBacktest, if_pos h]
  · intro rows budget priceOf h
    rw [allocate, if_pos h]
  · intro budget priceOf
    have h1 : tol < |weightSum [("A", 1/2), ("B", 2/5)] - 1| := by
      rw [show weightSum [("A", (1:ℚ)/2), ("B", 2/5)] - 1 = -(1/10) by norm_num [weightSum],
        abs_neg, abs_of_nonneg (by norm_num)]
      norm_num [tol]
    rw [allocate, if_pos h1]

/-- C4 witness: the two validation gates at concrete inputs. -/
theorem validation_rejects_witness :
    runBacktest 50 20 [some 1, some 2] = .error .validation ∧
    allocate [("A", 1/2), ("B", 2/5)] 1000 (fun _ => some 1) = .error .validation := by
  constructor
  · exact validation_rejects_before_compute.1 50 20 [some 1, some 2] (by norm_num)
  · exact validation_rejects_before_compute.2.2 1000 (fun _ => some 1)

/-- C5. When a requested ticker's price lookup fails while others succeed, the
code does not surface the gap per-row: `np.floor(TargetAmt/Price).astype(int)`
raises on the NaN price, so the whole allocation aborts and no plan at all is
produced (modelled as the `missingPrice` error), contradicting the claim that
the failure is not fatal and other rows complete normally. -/
theorem missing_price_aborts_plan :
    allocate [("VTI", 3/5), ("VXUS", 3/10), ("BND", 1/10)] 10000
      (fun t => if t = "VTI" then some 200 else if t = "VXUS" then some 55 else none)
      = .error .missingPrice := by
  have h1 : ¬ (tol < |weightSum [("VTI", 3/5), ("VXUS", 3/10), ("BND", 1/10)] - 1|) := by
    rw [show weightSum [("VTI", (3:ℚ)/5), ("VXUS", 3/10), ("BND", 1/10)] - 1 = 0 by
      norm_num [weightSum]]
    norm_num [tol]
  rw [allocate, if_neg h1, if_neg (by simp), if_pos (by simp)]

/-! ## Claim theorems: SMA backtest signal and return series -/

/-- C2. Once both SMAs are defined the binary signal is 1 where fast-SMA >
slow-SMA else 0, and the signal is lagged by exactly one period before being
multiplied into that period's return: period i+1's strategy return uses the
signal computed at period i. For prices [100,102,101,105,108] with fast=2,
slow=3, the slow SMA is undefined at index 1 and the signal first becomes
defined at index 2 (fast-SMA 101.5 > slow-SMA 101, signal 1); that signal
affects index 3's strategy return (4/101), while index 2's strategy return is 0
because it uses index 1's (undefined, hence 0) signal. -/
theorem sma_signal_lagged_one_period :
    (∀ (f s : ℕ) (p : List ℚ) (i : ℕ) (a b : ℚ),
      smaAt f p i = some a → smaAt s p i = some b →
      rawSignal f s p i = if b < a then 1 else 0) ∧
    (∀ (f s : ℕ) (p : List ℚ) (i : ℕ),
      stratRetAt f s p (i + 1) = pctChangeAt p (i + 1) * (rawSignal f s p i : ℚ)) ∧
    (smaAt 3 scenarioP 1 = none ∧
     smaAt 2 scenarioP 2 = some (203/2) ∧ smaAt 3 scenarioP 2 = some 101 ∧
     rawSignal 2 3 scenarioP 0 = 0 ∧ rawSignal 2 3 scenarioP 1 = 0 ∧
     rawSignal 2 3 scenarioP 2 = 1 ∧
     laggedSignal 2 3 scenarioP 2 = 0 ∧ laggedSignal 2 3 scenarioP 3 = 1 ∧
     stratRetAt 2 3 scenarioP 2 = 0 ∧
     stratRetAt 2 3 scenarioP 3 = pctChangeAt scenarioP 3 ∧
     pctChangeAt scenarioP 3 = 4/101) := by
  refine ⟨?_, ?_, ?_⟩
  · intro f s p i a b h1 h2
    unfold rawSignal
    rw [h1, h2]
  · intro f s p i
    rfl
  · refine ⟨by norm_num [smaAt, scenarioP], by norm_num [smaAt, scenarioP],
      by norm_num [smaAt, scenarioP], by norm_num [rawSignal, smaAt, scenarioP],
      by norm_num [rawSignal, smaAt, scenarioP],
      by norm_num [rawSignal, smaAt, scenarioP],
      by norm_num [laggedSignal, rawSignal, smaAt, scenarioP],
      by norm_num [laggedSignal, rawSignal, smaAt, scenarioP],
      by norm_num [stratRetAt, laggedSignal, rawSignal, smaAt, scenarioP],
      ?_, by norm_num [pctChangeAt, scenarioP]⟩
    have h3 : laggedSignal 2 3 scenarioP 3 = 1 := by
      norm_num [laggedSignal, rawSignal, smaAt, scenarioP]
    rw [stratRetAt, h3]
    norm_num

/-- C2 witness: the signal formula applied at the scenario's index 2, where the
fast SMA is 203/2 and the slow SMA is 101. -/
theorem sma_signal_lagged_one_period_witness :
    rawSignal 2 3 scenarioP 2 = if (101 : ℚ) < 203/2 then 1 else 0 :=
  sma_signal_lagged_one_period.1 2 3 scenarioP 2 (203/2) 101
    (by norm_num [smaAt, scenarioP]) (by norm_num [smaAt, scenarioP])

/-- C3 counterexample: for the NaN-free price series [100, 102] the return
series fed to the equity curves and metrics is [0, 1/50]: its length is 2, not
len(PriceSeries) − 1 = 1, and its first entry is an injected zero-return period
(`pct_change().fillna(0)` zero-fills the first period's undefined return). -/
theorem return_series_zero_filled_counterexample :
    returnSeries [some 100, some 102] = [0, 1/50] ∧
    (returnSeries [some 100, some 102]).length ≠ [some 100, some 102].length - 1 ∧
    (returnSeries [some 100, some 102]).getD 0 0 = 0 := by
  refine ⟨?_, ?_, ?_⟩
  · norm_num [returnSeries, returnList, dropNone, pctChangeAt, List.range_succ]
  · norm_num [returnSeries, returnList, dropNone]
  · norm_num [returnSeries, returnList, dropNone, pctChangeAt, List.range_succ]

/-- C3 (amended). Missing price observations are dropped from the price series
before the returns are computed, but the first period's undefined return is
then zero-filled: the return series fed to the equity curves and metrics has
length equal to the number of non-missing prices (not that number minus one),
its entry 0 is an injected 0, and every entry i ≥ 1 is the genuine
period-over-period change of the cleaned prices, with no other zero-filling. -/
theorem return_series_amended (p : List (Option ℚ)) :
    (returnSeries p).length = (dropNone p).length ∧
    (∀ i, i < (dropNone p).length →
      (returnSeries p).getD i 0 = pctChangeAt (dropNone p) i) ∧
    (dropNone p ≠ [] → (returnSeries p).getD 0 0 = 0) ∧
    (∀ i, 0 < i → i < (dropNone p).length →
      (returnSeries p).getD i 0 =
        (dropNone p).getD i 0 / (dropNone p).getD (i - 1) 0 - 1) := by
  have hget : ∀ i, i < (dropNone p).length →
      (returnSeries p).getD i 0 = pctChangeAt (dropNone p) i := by
    intro i h
    have hlen : i < (returnSeries p).length := by simpa [returnSeries, returnList]
    rw [List.getD_eq_getElem _ _ hlen]
    simp [returnSeries, returnList]
  refine ⟨by simp [returnSeries, returnList], hget, ?_, ?_⟩
  · intro h
    have h0 : 0 < (dropNone p).length := List.length_pos.mpr h
    rw [hget 0 h0]
    rfl
  · intro i hpos hlen
    rw [hget i hlen]
    cases i with
    | zero => omega
    | succ j => rfl

/-- C3 witness: the amended description at a price series with one missing
observation: prices [100, NaN, 102, 101] give returns of length 3 with entry 0
zero-filled and entry 2 equal to 101/102 − 1. -/
theorem return_series_amended_witness :
    (returnSeries [some 100, none, some 102, some 101]).length = 3 ∧
    (returnSeries [some 100, none, some 102, some 101]).getD 0 0 = 0 ∧
    (returnSeries [some 100, none, some 102, some 101]).getD 2 0 =
      (dropNone [some 100, none, some 102, some 101]).getD 2 0 /
        (dropNone [some 100, none, some 102, some 101]).getD 1 0 - 1 := by
  refine ⟨?_, ?_, ?_⟩
  · rw [(return_series_amended _).1]
    norm_num [dropNone]
  · exact (return_series_amended _).2.2.1 (by simp [dropNone])
  · exact (return_series_amended _).2.2.2 2 (by norm_num) (by norm_num [dropNone])

/-! ## Helper lemmas: running maximum, drawdowns, series minimum -/

lemma cummaxAux_length (m : ℚ) (l : List ℚ) : (cummaxAux m l).length = l.length := by
  induction l generalizing m with
  | nil => rfl
  | cons y ys ih => simp [cummaxAux, ih]

lemma cummax_length (l : List ℚ) : (cummax l).length = l.length := by
  cases l with
  | nil => rfl
  | cons x xs => simp [cummax, cummaxAux_length]

lemma cummaxAux_getD (m : ℚ) (l : List ℚ) (i : ℕ) (h : i < l.length) :
    (cummaxAux m l).getD i 0 = (l.take (i + 1)).foldl max m := by
  induction l generalizing m i with
  | nil => simp at h
  | cons y ys ih =>
    cases i with
    | zero => simp [cummaxAux]
    | succ j =>
      simp only [cummaxAux, List.getD_cons_succ, List.take_succ_cons, List.foldl_cons]
      exact ih (max m y) j (by simpa using h)

lemma cummax_getD (l : List ℚ) (i : ℕ) (h : i < l.length) :
    (cummax l).getD i 0 = (l.take (i + 1)).foldl max (l.getD 0 0) := by
  cases l with
  | nil => simp at h
  | cons x xs =>
    cases i with
    | zero => simp [cummax]
    | succ j =>
      simp only [cummax, List.getD_cons_succ, List.getD_cons_zero,
        List.take_succ_cons, List.foldl_cons, max_self]
      exact cummaxAux_getD x xs j (by simpa using h)

lemma cummaxAux_getD_succ (m : ℚ) (l : List ℚ) (i : ℕ) (h : i + 1 < l.length) :
    (cummaxAux m l).getD (i + 1) 0
      = max ((cummaxAux m l).getD i 0) (l.getD (i + 1) 0) := by
  induction l generalizing m i with
  | nil => simp at h
  | cons y ys ih =>
    cases i with
    | zero =>
      cases ys with
      | nil => simp at h
      | cons z zs => simp [cummaxAux]
    | succ j =>
      simp only [cummaxAux, List.getD_cons_succ]
      exact ih (max m y) j (by simpa using h)

lemma cummax_getD_succ (l : List ℚ) (i : ℕ) (h : i + 1 < l.length) :
    (cummax l).getD (i + 1) 0
      = max ((cummax l).getD i 0) (l.getD (i + 1) 0) := by
  cases l with
  | nil => simp at h
  | cons x xs =>
    cases i with
    | zero =>
      cases xs with
      | nil => simp at h
      | cons z zs => simp [cummax, cummaxAux]
    | succ j =>
      simp only [cummax, List.getD_cons_succ]
      exact cummaxAux_getD_succ x xs j (by simpa using h)

lemma getD_le_cummaxAux (m : ℚ) (l : List ℚ) (i : ℕ) (h : i < l.length) :
    l.getD i 0 ≤ (cummaxAux m l).getD i 0 := by
  induction l generalizing m i with
  | nil => simp at h
  | cons y ys ih =>
    cases i with
    | zero => simp [cummaxAux]
    | succ j =>
      simp only [cummaxAux, List.getD_cons_succ]
      exact ih (max m y) j (by simpa using h)

lemma getD_le_cummax (l : List ℚ) (i : ℕ) (h : i < l.length) :
    l.getD i 0 ≤ (cummax l).getD i 0 := by
  cases l with
  | nil => simp at h
  | cons x xs =>
    cases i with
    | zero => simp [cummax]
    | succ j =>
      simp only [cummax, List.getD_cons_succ]
      exact getD_le_cummaxAux x xs j (by simpa using h)

lemma getD_mem {l : List ℚ} {i : ℕ} (h : i < l.length) : l.getD i 0 ∈ l := by
  rw [List.getD_eq_getElem _ _ h]
  exact List.getElem_mem h

lemma cummax_getD_pos (l : List ℚ) (hpos : ∀ x ∈ l, 0 < x) (i : ℕ)
    (h : i < l.length) : 0 < (cummax l).getD i 0 :=
  lt_of_lt_of_le (hpos _ (getD_mem h)) (getD_le_cummax l i h)

lemma drawdowns_length (l : List ℚ) : (drawdowns l).length = l.length := by
  simp [drawdowns, cummax_length]

lemma drawdowns_getD (l : List ℚ) (i : ℕ) (h : i < l.length) :
    (drawdowns l).getD i 0 = l.getD i 0 / (cummax l).getD i 0 - 1 := by
  have h2 : i < (cummax l).length := by rwa [cummax_length]
  have h3 : i < (drawdowns l).length := by rwa [drawdowns_length]
  rw [List.getD_eq_getElem _ _ h3, List.getD_eq_getElem _ _ h,
    List.getD_eq_getElem _ _ h2]
  simp [drawdowns]

lemma foldl_min_le_init (a : ℚ) (l : List ℚ) : l.foldl min a ≤ a := by
  induction l generalizing a with
  | nil => simp
  | cons y ys ih =>
    simp only [List.foldl_cons]
    exact le_trans (ih (min a y)) (min_le_left a y)

lemma foldl_min_le_mem (a : ℚ) {b : ℚ} {l : List ℚ} (hb : b ∈ l) :
    l.foldl min a ≤ b := by
  induction l generalizing a with
  | nil => simp at hb
  | cons y ys ih =>
    simp only [List.foldl_cons]
    rcases List.mem_cons.mp hb with rfl | hb2
    · exact le_trans (foldl_min_le_init _ _) (min_le_right a b)
    · exact ih (min a y) hb2

lemma foldl_min_choice (a : ℚ) (l : List ℚ) :
    l.foldl min a = a ∨ l.foldl min a ∈ l := by
  induction l generalizing a with
  | nil => left; rfl
  | cons y ys ih =>
    simp only [List.foldl_cons]
    rcases ih (min a y) with h | h
    · rcases min_choice a y with h2 | h2
      · left; rw [h, h2]
      · right; rw [h, h2]; exact List.mem_cons_self y ys
    · right; exact List.mem_cons_of_mem y h

lemma minQ_le_mem {l : List ℚ} {d b : ℚ} (hm : minQ l = some d) (hb : b ∈ l) :
    d ≤ b := by
  cases l with
  | nil => simp [minQ] at hm
  | cons x xs =>
    simp only [minQ, Option.some.injEq] at hm
    subst hm
    rcases List.mem_cons.mp hb with h1 | h2
    · rw [h1]; exact foldl_min_le_init x xs
    · exact foldl_min_le_mem x h2

lemma minQ_mem {l : List ℚ} {d : ℚ} (hm : minQ l = some d) : d ∈ l := by
  cases l with
  | nil => simp [minQ] at hm
  | cons x xs =>
    simp only [minQ, Option.some.injEq] at hm
    subst hm
    rcases foldl_min_choice x xs with h | h
    · rw [h]; exact List.mem_cons_self x xs
    · exact List.mem_cons_of_mem x h

lemma minQ_isSome {l : List ℚ} (h : l ≠ []) : ∃ d, minQ l = some d := by
  cases l with
  | nil => exact absurd rfl h
  | cons x xs => exact ⟨xs.foldl min x, rfl⟩

lemma cummax_eq_of_chain (l : List ℚ) (hc : l.Chain' (· ≤ ·)) (i : ℕ)
    (h : i < l.length) : (cummax l).getD i 0 = l.getD i 0 := by
  induction i with
  | zero =>
    cases l with
    | nil => simp at h
    | cons x xs => simp [cummax]
  | succ j ih =>
    have hj : j < l.length := Nat.lt_of_succ_lt h
    rw [cummax_getD_succ l j h, ih hj]
    have hle : l.getD j 0 ≤ l.getD (j + 1) 0 := by
      have h2 := List.chain'_iff_get.mp hc j (by omega)
      rw [List.getD_eq_getElem _ _ hj, List.getD_eq_getElem _ _ h]
      simpa [List.get_eq_getElem] using h2
    exact max_eq_right hle

/-! ## Claim theorems: max_drawdown -/

/-- C6. On the empty curve max_drawdown is the undefined sentinel, not an
exception; on every non-empty positive equity curve it is the minimum over i of
equityCurve[i] / max(equityCurve[0..i]) − 1, which is always ≤ 0 and is 0 if
and only if the curve is non-decreasing. -/
theorem max_drawdown_spec :
    max_drawdown [] = none ∧
    ∀ l : List ℚ, l ≠ [] → (∀ x ∈ l, 0 < x) →
      ∃ d, max_drawdown l = some d ∧
        (∀ i, i < l.length →
          d ≤ l.getD i 0 / ((l.take (i + 1)).foldl max (l.getD 0 0)) - 1) ∧
        (∃ i, i < l.length ∧
          d = l.getD i 0 / ((l.take (i + 1)).foldl max (l.getD 0 0)) - 1) ∧
        d ≤ 0 ∧
        (d = 0 ↔ l.Chain' (· ≤ ·)) := by
  constructor
  · rfl
  intro l hne hpos
  have hDne : drawdowns l ≠ [] := by
    intro h
    apply hne
    have h2 := drawdowns_length l
    rw [h] at h2
    exact List.length_eq_zero.mp h2.symm
  obtain ⟨d, hd⟩ := minQ_isSome hDne
  have hmem := minQ_mem hd
  have hle : ∀ b ∈ drawdowns l, d ≤ b := fun b hb => minQ_le_mem hd hb
  have h0len : 0 < l.length := List.length_pos.mpr hne
  have hlow : ∀ i, i < l.length →
      d ≤ l.getD i 0 / ((l.take (i + 1)).foldl max (l.getD 0 0)) - 1 := by
    intro i h
    have hmemD : (drawdowns l).getD i 0 ∈ drawdowns l :=
      getD_mem (by rwa [drawdowns_length])
    have h2 := hle _ hmemD
    rwa [drawdowns_getD l i h, cummax_getD l i h] at h2
  have hatt : ∃ i, i < l.length ∧
      d = l.getD i 0 / ((l.take (i + 1)).foldl max (l.getD 0 0)) - 1 := by
    obtain ⟨n, hn, he⟩ := List.mem_iff_getElem.mp hmem
    have hnl : n < l.length := by rwa [drawdowns_length] at hn
    refine ⟨n, hnl, ?_⟩
    rw [← cummax_getD l n hnl, ← drawdowns_getD l n hnl,
      List.getD_eq_getElem _ _ hn, he]
  have hch0 : (cummax l).getD 0 0 = l.getD 0 0 := by
    cases l with
    | nil => simp at h0len
    | cons x xs => simp [cummax]
  have hD0 : (drawdowns l).getD 0 0 = 0 := by
    rw [drawdowns_getD l 0 h0len, hch0,
      div_self (ne_of_gt (hpos _ (getD_mem h0len)))]
    ring
  have hd0 : d ≤ 0 := by
    have hmemD : (drawdowns l).getD 0 0 ∈ drawdowns l :=
      getD_mem (by rwa [drawdowns_length])
    have h2 := hle _ hmemD
    rwa [hD0] at h2
  refine ⟨d, hd, hlow, hatt, hd0, ?_⟩
  constructor
  · intro hdz
    rw [List.chain'_iff_get]
    intro i hi
    have hi1 : i + 1 < l.length := by omega
    have hii : i < l.length := by omega
    have hmemD : (drawdowns l).getD (i + 1) 0 ∈ drawdowns l :=
      getD_mem (by rwa [drawdowns_length])
    have h2 := hle _ hmemD
    rw [drawdowns_getD l (i + 1) hi1, hdz] at h2
    have hcpos : 0 < (cummax l).getD (i + 1) 0 := cummax_getD_pos l hpos (i + 1) hi1
    have h3 : (cummax l).getD (i + 1) 0 ≤ l.getD (i + 1) 0 := by
      have h4 : (1 : ℚ) ≤ l.getD (i + 1) 0 / (cummax l).getD (i + 1) 0 := by linarith
      calc (cummax l).getD (i + 1) 0
          = 1 * (cummax l).getD (i + 1) 0 := (one_mul _).symm
        _ ≤ (l.getD (i + 1) 0 / (cummax l).getD (i + 1) 0) * (cummax l).getD (i + 1) 0 :=
            mul_le_mul_of_nonneg_right h4 hcpos.le
        _ = l.getD (i + 1) 0 := div_mul_cancel₀ _ (ne_of_gt hcpos)
    have h5 : l.getD i 0 ≤ (cummax l).getD i 0 := getD_le_cummax l i hii
    have h6 : (cummax l).getD i 0 ≤ (cummax l).getD (i + 1) 0 := by
      rw [cummax_getD_succ l i hi1]
      exact le_max_left _ _
    have h7 : l.getD i 0 ≤ l.getD (i + 1) 0 := by linarith
    rw [List.getD_eq_getElem _ _ hii, List.getD_eq_getElem _ _ hi1] at h7
    simpa [List.get_eq_getElem] using h7
  · intro hc
    obtain ⟨n, hn, he⟩ := List.mem_iff_getElem.mp hmem
    have hnl : n < l.length := by rwa [drawdowns_length] at hn
    have h2 : d = (drawdowns l).getD n 0 := by
      rw [List.getD_eq_getElem _ _ hn, he]
    rw [h2, drawdowns_getD l n hnl, cummax_eq_of_chain l hc n hnl,
      div_self (ne_of_gt (hpos _ (getD_mem hnl)))]
    ring

/-- C6 witness: the properties at the strictly decreasing curve [2, 1]. -/
theorem max_drawdown_spec_witness :
    ∃ d, max_drawdown [2, 1] = some d ∧ d ≤ 0 ∧
      (d = 0 ↔ ([2, 1] : List ℚ).Chain' (· ≤ ·)) := by
  obtain ⟨d, h1, -, -, h4, h5⟩ := max_drawdown_spec.2 [2, 1]
    (by simp) (by intro x hx; fin_cases hx <;> norm_num)
  exact ⟨d, h1, h4, h5⟩

/-! ## Helper lemmas: sample variance -/

lemma sampleVar_eq_none_iff (l : List ℚ) : sampleVar l = none ↔ l.length ≤ 1 := by
  unfold sampleVar
  split <;> simp_all

lemma sampleVar_nonneg {l : List ℚ} {v : ℚ} (h : sampleVar l = some v) : 0 ≤ v := by
  unfold sampleVar at h
  split at h
  · exact absurd h (by simp)
  · rename_i hlen
    simp only [Option.some.injEq] at h
    subst h
    apply div_nonneg
    · apply List.sum_nonneg
      intro x hx
      obtain ⟨y, -, rfl⟩ := List.mem_map.mp hx
      positivity
    · have h2 : 2 ≤ l.length := by omega
      have h3 : (2:ℚ) ≤ (l.length : ℚ) := by exact_mod_cast h2
      linarith

/-! ## Claim theorems: sharpe -/

/-- C7. For every return series, risk-free rate and positive periods-per-year,
sharpe is the undefined sentinel (none) iff the series is empty or the sample
standard deviation (ddof = 1) of the excess returns is 0 or itself undefined
(which happens exactly when the series has at most one observation); otherwise
it equals mean(excess)×ppy divided by stdDev(excess)×sqrt(ppy), and it never
raises (it is a total function of its inputs). -/
theorem sharpe_undefined_iff (returns : List ℚ) (risk_free : ℚ) (ppy : ℕ)
    (hppy : 0 < ppy) :
    (sharpe returns risk_free ppy = none ↔
      returns = [] ∨ sampleStd (excessList returns risk_free ppy) = none ∨
        sampleStd (excessList returns risk_free ppy) = some 0) ∧
    (sampleStd (excessList returns risk_free ppy) = none ↔ returns.length ≤ 1) ∧
    (∀ s : ℝ, sampleStd (excessList returns risk_free ppy) = some s → s ≠ 0 →
      returns ≠ [] →
      sharpe returns risk_free ppy =
        some ((((listMean (excessList returns risk_free ppy) * (ppy : ℚ)) : ℚ) : ℝ) /
          (s * Real.sqrt (ppy : ℝ)))) := by
  have hlen : (excessList returns risk_free ppy).length = returns.length := by
    simp [excessList]
  refine ⟨?_, ?_, ?_⟩
  · by_cases hr : returns = []
    · subst hr
      simp [sharpe]
    · rcases hv : sampleVar (excessList returns risk_free ppy) with _ | v
      · have h1 : sharpe returns risk_free ppy = none := by
          simp [sharpe, hr, hv]
        have h2 : sampleStd (excessList returns risk_free ppy) = none := by
          simp [sampleStd, hv]
        simp [h1, h2]
      · by_cases hv0 : v = 0
        · subst hv0
          have h1 : sharpe returns risk_free ppy = none := by
            simp [sharpe, hr, hv]
          have h2 : sampleStd (excessList returns risk_free ppy) = some 0 := by
            simp [sampleStd, hv, Real.sqrt_zero]
          simp [h1, h2]
        · have h1 : sharpe returns risk_free ppy ≠ none := by
            simp [sharpe, hr, hv, hv0]
          have hvpos : 0 < v := lt_of_le_of_ne (sampleVar_nonneg hv) (Ne.symm hv0)
          have h2 : sampleStd (excessList returns risk_free ppy) ≠ none := by
            simp [sampleStd, hv]
          have h3 : sampleStd (excessList returns risk_free ppy) ≠ some 0 := by
            simp only [sampleStd, hv, Option.map_some', ne_eq, Option.some.injEq]
            intro hs
            have hc : (0:ℝ) < (v:ℝ) := by exact_mod_cast hvpos
            have := Real.sqrt_pos.mpr hc
            linarith
          simp [h1, h2, h3, hr]
  · rw [show sampleStd (excessList returns risk_free ppy) = none ↔
        sampleVar (excessList returns risk_free ppy) = none from Option.map_eq_none']
    rw [sampleVar_eq_none_iff, hlen]
  · intro s hs hs0 hr
    obtain ⟨v, hv, hsv⟩ := Option.map_eq_some'.mp hs
    have hv0 : v ≠ 0 := by
      intro h
      subst h
      simp [Real.sqrt_zero] at hsv
      exact hs0 hsv.symm
    simp only [sharpe, if_neg hr, hv]
    rw [if_neg hv0, hsv]

/-- C7 witness: a constant series [1, 1] has zero sample deviation of excess
returns, so its Sharpe ratio is the undefined sentinel. -/
theorem sharpe_undefined_iff_witness : sharpe [1, 1] 0 252 = none := by
  apply (sharpe_undefined_iff [1, 1] 0 252 (by norm_num)).1.mpr
  refine Or.inr (Or.inr ?_)
  have he : excessList [1, 1] 0 252 = [1, 1] := by
    norm_num [excessList]
  have hv : sampleVar [1, 1] = some 0 := by
    norm_num [sampleVar, listMean]
  rw [he]
  simp [sampleStd, hv, Real.sqrt_zero]

/-! ## Claim theorems: historical VaR and CAGR -/

lemma dropNone_map_some (l : List ℚ) : dropNone (l.map some) = l := by
  induction l with
  | nil => rfl
  | cons x xs ih => simp [dropNone, ih]

/-- C8. historicalVaR is the undefined sentinel (none) on an empty series and
otherwise the (1 − confidence)·100-th linear-interpolated percentile of the
empirical distribution; for returns [0.01, −0.02, 0.03, −0.01, 0.00] at
confidence 0.95 it is the interpolated 5th percentile, −0.018 = −9/500. -/
theorem historical_var_spec :
    (∀ level : ℚ, var_historical [] level = none) ∧
    (∀ (returns : List ℚ) (level : ℚ), returns ≠ [] →
      var_historical (returns.map some) level =
        some (percentile returns ((1 - level) * 100))) ∧
    var_historical [some (1/100), some (-1/50), some (3/100), some (-1/100), some 0]
        (95/100) = some (-9/500) := by
  refine ⟨fun level => rfl, ?_, ?_⟩
  · intro returns level hne
    have h2 : returns.map some ≠ [] := by
      simpa using hne
    rw [var_historical, if_neg h2, dropNone_map_some]
  · rw [var_historical, if_neg (by simp)]
    rw [show dropNone [some (1/100), some (-1/50), some (3/100), some (-1/100), some 0]
      = [1/100, -1/50, 3/100, -1/100, 0] by norm_num [dropNone]]
    rw [show ((1 : ℚ) - 95/100) * 100 = 5 by norm_num]
    rw [percentile]
    rw [show ([1/100, -1/50, 3/100, -1/100, 0] : List ℚ).insertionSort (· ≤ ·)
      = [-1/50, -1/100, 0, 1/100, 3/100] by norm_num [List.insertionSort, List.orderedInsert]]
    norm_num

/-- C8 witness: the non-empty case at a concrete two-element series. -/
theorem historical_var_spec_witness :
    var_historical [some (1/100), some (3/100)] (1/2) =
      some (percentile [1/100, 3/100] ((1 - 1/2) * 100)) :=
  historical_var_spec.2.1 [1/100, 3/100] (1/2) (by simp)

/-- C10. NaN entries inside a non-empty return series are dropped before the
percentile is computed: the result equals historicalVaR of the series with
those entries deleted, provided at least one observation remains. -/
theorem historical_var_drops_missing (returns : List (Option ℚ)) (level : ℚ)
    (hne : returns ≠ []) (hsome : dropNone returns ≠ []) :
    var_historical returns level =
      var_historical ((dropNone returns).map some) level := by
  have h2 : (dropNone returns).map some ≠ [] := by
    simpa using hsome
  rw [var_historical, var_historical, if_neg hne, if_neg h2, dropNone_map_some]

/-- C10 witness: [0.01?, NaN, 0.02?] has the same VaR as [0.01?, 0.02?]. -/
theorem historical_var_drops_missing_witness :
    var_historical [some 1, none, some 2] (1/2) =
      var_historical [some 1, some 2] (1/2) := by
  have h := historical_var_drops_missing [some 1, none, some 2] (1/2)
    (by simp) (by simp [dropNone])
  rw [show dropNone [some 1, none, some 2] = [1, 2] by norm_num [dropNone]] at h
  simpa using h

/-- C9. For every non-empty equity curve and periodsPerYear (nonzero, since the
code divides by it), CAGR is the undefined sentinel (none) when the curve is
empty or years = length/periodsPerYear ≤ 0, and otherwise equals
(1 + totalReturn)^(1/years) − 1 with totalReturn = last/first − 1, i.e.
(last/first)^(periodsPerYear/length) − 1. -/
theorem cagr_spec (l : List ℚ) (ppy : ℤ) (hppy : ppy ≠ 0) :
    (CAGR [] ppy = none) ∧
    (l ≠ [] → (l.length : ℚ) / (ppy : ℚ) ≤ 0 → CAGR l ppy = none) ∧
    (l ≠ [] → 0 < (l.length : ℚ) / (ppy : ℚ) →
      CAGR l ppy = some ((1 + ((l.getLastD 0 / l.headD 0 - 1 : ℚ) : ℝ)) ^
          ((1 : ℝ) / (((l.length : ℚ) / (ppy : ℚ) : ℚ) : ℝ)) - 1) ∧
      CAGR l ppy = some ((((l.getLastD 0 / l.headD 0 : ℚ) : ℝ)) ^
          ((ppy : ℝ) / (l.length : ℝ)) - 1)) := by
  refine ⟨rfl, ?_, ?_⟩
  · intro hne hyrs
    rw [CAGR, if_neg hne]
    simp only [if_pos hyrs]
  · intro hne hyrs
    have hnle : ¬ ((l.length : ℚ) / (ppy : ℚ) ≤ 0) := not_le.mpr hyrs
    constructor
    · rw [CAGR, if_neg hne]
      simp only [if_neg hnle]
    · rw [CAGR, if_neg hne]
      simp only [if_neg hnle, Option.some.injEq]
      have h1 : (1 : ℝ) + ((l.getLastD 0 / l.headD 0 - 1 : ℚ) : ℝ)
          = ((l.getLastD 0 / l.headD 0 : ℚ) : ℝ) := by
        push_cast
        ring
      have h2 : (1 : ℝ) / (((l.length : ℚ) / (ppy : ℚ) : ℚ) : ℝ)
          = (ppy : ℝ) / (l.length : ℝ) := by
        push_cast
        rw [one_div_div]
      rw [h1, h2]

/-- C9 witness: the curve [1, 2] at 252 periods per year has
CAGR = 2^(252/2) − 1 = 2^126 − 1. -/
theorem cagr_spec_witness :
    CAGR [1, 2] 252 = some ((2 : ℝ) ^ ((126 : ℝ)) - 1) := by
  have h := (cagr_spec [1, 2] 252 (by norm_num)).2.2 (by simp) (by norm_num)
  rw [h.2]
  norm_num

end FinApp
